import Mathlib

/-!
Verification of the background processing pool
(`dbms/src/Storages/MergeTree/BackgroundProcessingPool.cpp`).

The pool state is embedded shallowly:

* `time_t` becomes `Int`; wait durations (which the C++ computes in `double`
  from exact integer seconds plus a random jitter draw) become `ℚ`.
* A `TaskInfo` keeps the fields the scheduler reads and writes: the atomic
  `removed` flag and `next_time_to_execute`.  The record store `taskInfos`
  models the set of live `shared_ptr<TaskInfo>` objects (a record survives
  `removeTask`, which only unlinks it from the list), while `tasks` models
  the `TaskList` ordering of handles.
* One pass of the worker loop body (`threadFunction`, lines 108-216) is the
  function `threadIteration`.  Reads of shared atomics that another thread
  may change mid-iteration (the `removed` re-check after acquiring the
  task's rwlock, the two `shutdown` reads) are inputs, as are the two
  `time(0)` calls and the jitter draw.  The task callable's behaviour for
  this invocation is an input `run : TaskId → TaskRun`: the list of
  `Context::increment` calls it performs followed by either a normal boolean
  return or a thrown exception.
* Lock usage around writes of `next_time_to_execute` is recorded as an
  event trace (`LockEv`), so that the locking discipline can be stated.
-/

namespace BackgroundProcessingPool

/-- `time_t` is modelled as an unbounded integer (wall-clock seconds). -/
abbrev Time := Int

/-- Tasks are identified by the identity of their `TaskInfo` object. -/
abbrev TaskId := Nat

/-- The scheduler-visible fields of `TaskInfo`. -/
structure TaskInfo where
  removed : Bool
  next_time_to_execute : Time
deriving DecidableEq

/-- The shared `counters` map (`std::map<String, int>`), as an association
list; `lookupVal` below gives the observable value of a name. -/
abbrev Counters := List (String × Int)

/-- Value of `counters[name]` as observed by `getCounter` (0 if absent). -/
def lookupVal : Counters → String → Int
  | [], _ => 0
  | (k, v) :: rest, name => if k = name then v else lookupVal rest name

/-- `counters[name] += d` on a `std::map`: update the entry if present,
insert `(name, d)` otherwise. -/
def addTo : Counters → String → Int → Counters
  | [], name, d => [(name, d)]
  | (k, v) :: rest, name, d =>
      if k = name then (k, v + d) :: rest else (k, v) :: addTo rest name d

/-- Sum of the values of all entries of `cs` carrying key `name`. -/
def sumOf : Counters → String → Int
  | [], _ => 0
  | (k, v) :: rest, name => (if k = name then v else 0) + sumOf rest name

/-- Modelled from the spec: `Context::increment(name, delta)` (declared in
the missing header `BackgroundProcessingPool.h`): under `counters_mutex`,
add `delta` to the pool's shared counters; also record `delta` into the
local diff map, accumulating if the name is already present. -/
def contextIncrement (shared localDiff : Counters) (name : String) (delta : Int) :
    Counters × Counters :=
  (addTo shared name delta, addTo localDiff name delta)

/-- Apply a task's sequence of `Context::increment` calls to the shared
counters and the local `counters_diff` map. -/
def applyIncrements : Counters → Counters → List (String × Int) → Counters × Counters
  | shared, diff, [] => (shared, diff)
  | shared, diff, (n, d) :: rest =>
      let p := contextIncrement shared diff n d
      applyIncrements p.1 p.2 rest

/-- The rollback loop of `threadFunction` (lines 200-206): for every entry
of `counters_diff`, subtract it from the shared counters.  (The C++ guards
this with `!counters_diff.empty()`, which has no semantic effect.) -/
def subtractDiff (cs : Counters) (diff : Counters) : Counters :=
  diff.foldl (fun acc e => addTo acc e.1 (-e.2)) cs

/-- Pool state visible to the operations under verification. -/
structure Pool where
  taskInfos : List (TaskId × TaskInfo)
  tasks : List TaskId
  counters : Counters
deriving DecidableEq

/-- First record stored for a handle, if any. -/
def findInfo : List (TaskId × TaskInfo) → TaskId → Option TaskInfo
  | [], _ => none
  | (k, v) :: rest, tid => if k = tid then some v else findInfo rest tid

/-- Dereference a handle.  A handle not in the record store behaves as an
already-removed task (this situation does not arise for well-formed pools,
where every listed id has a record). -/
def getInfo (p : Pool) (tid : TaskId) : TaskInfo :=
  (findInfo p.taskInfos tid).getD { removed := true, next_time_to_execute := 0 }

/-- Update the record stored for a handle. -/
def setInfo (p : Pool) (tid : TaskId) (f : TaskInfo → TaskInfo) : Pool :=
  { p with taskInfos := p.taskInfos.map fun q => (q.1, if q.1 = tid then f q.2 else q.2) }

/-- `tasks.splice(tasks.begin(), tasks, iterator)`: move a handle to the
front of the list. -/
def spliceToFront (l : List TaskId) (tid : TaskId) : List TaskId :=
  tid :: l.erase tid

/-- `tasks.splice(tasks.end(), tasks, iterator)`: move a handle to the end
of the list. -/
def spliceToEnd (l : List TaskId) (tid : TaskId) : List TaskId :=
  l.erase tid ++ [tid]

/-- `getCounter` (lines 49-53): read `counters[name]` under
`counters_mutex`. -/
def getCounter (p : Pool) (name : String) : Int :=
  lookupVal p.counters name

/-- Lock/unlock/write events, recorded to state the locking discipline
around writes of `next_time_to_execute`.  `lockTasks`/`unlockTasks` bracket
holds of `tasks_mutex`; `rlockTask`/`runlockTask` bracket the shared hold
of the executed task's rwlock. -/
inductive LockEv where
  | lockTasks
  | unlockTasks
  | rlockTask
  | runlockTask
  | waitEvent
  | notifyOne
  | invoke (tid : TaskId)
  | writeNextTime (tid : TaskId)
deriving DecidableEq

/-- Result of `TaskInfo::wake`: the new pool state, the number of
`notify_one` calls made, and the event trace. -/
structure WakeResult where
  pool : Pool
  notified : Nat
  trace : List LockEv
deriving DecidableEq

/-- `TaskInfo::wake` (lines 18-36): if `removed`, return.  Otherwise under
`tasks_mutex` splice the task to the front of the list and, if its
`next_time_to_execute` is strictly in the future, pull it back to
`current_time`; then `notify_one` on `wake_event`. -/
def wake (p : Pool) (tid : TaskId) (current_time : Time) : WakeResult :=
  if (getInfo p tid).removed then
    { pool := p, notified := 0, trace := [] }
  else
    let p1 : Pool := { p with tasks := spliceToFront p.tasks tid }
    let p2 : Pool :=
      if (getInfo p tid).next_time_to_execute > current_time then
        setInfo p1 tid fun i => { i with next_time_to_execute := current_time }
      else p1
    { pool := p2, notified := 1,
      trace := [.lockTasks]
        ++ (if (getInfo p tid).next_time_to_execute > current_time then
              [.writeNextTime tid] else [])
        ++ [.unlockTasks, .notifyOne] }

/-- Observable side effects of `removeTask` other than the state change:
the write-lock barrier on the task's rwlock and the erasure from the list. -/
inductive RemoveEvent where
  | acquireWriteLock
  | releaseWriteLock
  | eraseFromList
deriving DecidableEq

/-- `removeTask` (lines 69-83): atomically exchange `removed` to `true`; if
it was already `true`, return at once.  Otherwise acquire and release the
task's rwlock in exclusive mode (draining in-flight executions) and erase
the task from the list under `tasks_mutex`.  The record itself survives
(the caller's `shared_ptr` keeps it alive). -/
def removeTask (p : Pool) (tid : TaskId) : Pool × List RemoveEvent :=
  if (getInfo p tid).removed then
    (p, [])
  else
    let p1 := setInfo p tid fun i => { i with removed := true }
    let p2 := { p1 with tasks := p1.tasks.erase tid }
    (p2, [.acquireWriteLock, .releaseWriteLock, .eraseFromList])

/-- `std::numeric_limits<time_t>::max()`, the initial value of `min_time`
in the selection pass. -/
def timeMax : Time := 2 ^ 63 - 1

/-- The selection scan of `threadFunction` (lines 133-150), translated
literally: walk the list, skip removed handles, keep the running minimum of
`next_time_to_execute` under strict `<`, count only non-removed candidates
in `i` and break once `i + 1 > 100` (i.e. after the 101st candidate).
Returns the final `min_time`, the chosen handle and the list of candidates
visited (the non-removed handles whose time was compared). -/
def selectFrom (p : Pool) : List TaskId → Nat → Time → Option TaskId →
    Time × Option TaskId × List TaskId
  | [], _, min_time, task => (min_time, task, [])
  | tid :: rest, i, min_time, task =>
      let info := getInfo p tid
      if info.removed then
        selectFrom p rest i min_time task
      else
        let t := info.next_time_to_execute
        let mt2 := if t < min_time then t else min_time
        let tk2 := if t < min_time then some tid else task
        if i + 1 > 100 then (mt2, tk2, [tid])
        else
          let r := selectFrom p rest (i + 1) mt2 tk2
          (r.1, r.2.1, tid :: r.2.2)

/-- The whole selection pass: scan from the front of the task list with
`min_time` initialised to `timeMax` and no task chosen.  (The C++ guards
the scan with `!tasks.empty()`; scanning an empty list yields the same
null result.) -/
def selectTask (p : Pool) : Time × Option TaskId × List TaskId :=
  selectFrom p p.tasks 0 timeMax none

/-- Modelled from the spec: `sleep_seconds` (a `constexpr` of the missing
header `BackgroundProcessingPool.h`; the spec gives its default, 10). -/
def sleep_seconds : Int := 10

/-- Modelled from the spec: `sleep_seconds_random_part` (a `constexpr` of
the missing header; the spec gives its default, 1): jitter draws are
uniform in `[0, sleep_seconds_random_part)`. -/
def sleep_seconds_random_part : ℚ := 1

/-- Behaviour of one invocation of a task's callable: the
`Context::increment` calls it performs, then either a normal return with
`done_work` (`some done_work`) or a thrown exception (`none`). -/
structure TaskRun where
  increments : List (String × Int)
  outcome : Option Bool

/-- Environment of one pass of the worker loop body: the values the
iteration reads from shared atomics, the clock and the RNG.
`shutdown1`/`shutdown2` are the `shutdown` loads at lines 157 and 208;
`removedAtRecheck` is the `task->removed` load at line 180 after the shared
rwlock is acquired (it may observe a concurrent `removeTask`); `t_check`
and `t_done` are the `time(0)` calls at lines 170 and 191; `jitter` is this
iteration's draw from `U(0, sleep_seconds_random_part)`. -/
structure IterInput where
  shutdown1 : Bool
  shutdown2 : Bool
  removedAtRecheck : TaskId → Bool
  t_check : Time
  t_done : Time
  jitter : ℚ
  run : TaskId → TaskRun

/-- Observables of one pass of the worker loop body.  `stopped` means the
loop was left via `break`; the three duration fields record the
`wake_event.wait_for` calls (empty-list wait, not-yet-ready wait,
post-exception wait); `invoked` is the task whose callable was invoked, if
any. -/
structure IterOutput where
  pool : Pool
  stopped : Bool
  emptyWaitDur : Option ℚ
  notReadyWaitDur : Option ℚ
  exceptionWaitDur : Option ℚ
  invoked : Option TaskId
  trace : List LockEv

/-- Lines 178-215: what happens after the selection scan released
`tasks_mutex` and the shutdown/empty checks passed, for chosen task `tid`.
Acquire the task's rwlock shared, re-check `removed` (`continue` if set,
skipping the rest of the body), otherwise invoke the callable; on normal
return write `next_time_to_execute := time(0) + (done_work ? 0 :
sleep_seconds)`; on a throw, catch it.  Then roll the counter diff back,
re-check `shutdown`, and after an exception wait `sleep_seconds` with no
jitter. -/
def execPhase (p1 : Pool) (inp : IterInput) (tid : TaskId) (preWait : Option ℚ)
    (tr1 : List LockEv) : IterOutput :=
  if inp.removedAtRecheck tid then
    { pool := p1, stopped := false, emptyWaitDur := none, notReadyWaitDur := preWait,
      exceptionWaitDur := none, invoked := none, trace := tr1 ++ [.runlockTask] }
  else
    let r := inp.run tid
    let cd := applyIncrements p1.counters [] r.increments
    match r.outcome with
    | some done_work =>
        let p2 := setInfo { p1 with counters := cd.1 } tid fun i =>
          { i with next_time_to_execute := inp.t_done + (if done_work then 0 else sleep_seconds) }
        let p3 := { p2 with counters := subtractDiff p2.counters cd.2 }
        { pool := p3, stopped := inp.shutdown2, emptyWaitDur := none,
          notReadyWaitDur := preWait, exceptionWaitDur := none, invoked := some tid,
          trace := tr1 ++ [.invoke tid, .writeNextTime tid, .runlockTask] }
    | none =>
        let p2 := { p1 with counters := subtractDiff cd.1 cd.2 }
        { pool := p2, stopped := inp.shutdown2, emptyWaitDur := none,
          notReadyWaitDur := preWait,
          exceptionWaitDur := if inp.shutdown2 then none else some ((sleep_seconds : ℚ)),
          invoked := some tid,
          trace := tr1 ++ [.invoke tid, .runlockTask]
            ++ (if inp.shutdown2 then [] else [.lockTasks, .waitEvent, .unlockTasks]) }

/-- Lines 157-215: the loop body after the selection scan, given the final
`min_time` and chosen task.  `break` on shutdown; if no task was chosen,
wait `sleep_seconds + jitter` and `continue`; if the chosen task's time is
strictly after `time(0)`, wait `(min_time - now) + jitter` — and then fall
through to `execPhase` (there is no `continue` after this wait). -/
def afterSelection (p1 : Pool) (inp : IterInput) (min_time : Time)
    (task : Option TaskId) : IterOutput :=
  let tr0 : List LockEv := [.lockTasks, .unlockTasks]
  if inp.shutdown1 then
    { pool := p1, stopped := true, emptyWaitDur := none, notReadyWaitDur := none,
      exceptionWaitDur := none, invoked := none, trace := tr0 }
  else
    match task with
    | none =>
        { pool := p1, stopped := false,
          emptyWaitDur := some ((sleep_seconds : ℚ) + inp.jitter),
          notReadyWaitDur := none, exceptionWaitDur := none, invoked := none,
          trace := tr0 ++ [.lockTasks, .waitEvent, .unlockTasks] }
    | some tid =>
        let preWait : Option ℚ :=
          if min_time > inp.t_check then
            some (((min_time - inp.t_check : Int) : ℚ) + inp.jitter)
          else none
        let tr1 := tr0
          ++ (if min_time > inp.t_check then [.lockTasks, .waitEvent, .unlockTasks] else [])
          ++ [.rlockTask]
        execPhase p1 inp tid preWait tr1

/-- One pass of the worker loop body (`threadFunction`, lines 108-216):
run the selection scan under `tasks_mutex`, splice the chosen task (if any)
to the end of the list, then proceed as in `afterSelection`. -/
def threadIteration (p : Pool) (inp : IterInput) : IterOutput :=
  afterSelection
    (match (selectTask p).2.1 with
     | some tid => { p with tasks := spliceToEnd p.tasks tid }
     | none => p)
    inp (selectTask p).1 (selectTask p).2.1

/-- Checks that every `writeNextTime` event of a trace happens while
`tasks_mutex` is NOT held and the task's rwlock IS held (shared) — the
discipline the worker loop actually follows.  `heldT`/`heldR` say whether
`tasks_mutex` / the rwlock are held at the start (no hold is nested in
these traces, so booleans suffice). -/
def workerWriteLocks : Bool → Bool → List LockEv → Bool
  | _, _, [] => true
  | heldT, heldR, e :: rest =>
      match e with
      | .lockTasks => workerWriteLocks true heldR rest
      | .unlockTasks => workerWriteLocks false heldR rest
      | .rlockTask => workerWriteLocks heldT true rest
      | .runlockTask => workerWriteLocks heldT false rest
      | .writeNextTime _ => (!heldT && heldR) && workerWriteLocks heldT heldR rest
      | _ => workerWriteLocks heldT heldR rest

/-- Checks that every `writeNextTime` event of a trace happens while
`tasks_mutex` IS held — the discipline `wake` follows (and the one the spec
asserts for all writes). -/
def wakeWriteLocks : Bool → List LockEv → Bool
  | _, [] => true
  | heldT, e :: rest =>
      match e with
      | .lockTasks => wakeWriteLocks true rest
      | .unlockTasks => wakeWriteLocks false rest
      | .writeNextTime _ => heldT && wakeWriteLocks heldT rest
      | _ => wakeWriteLocks heldT rest

/-! Concrete pools and inputs used to evaluate the model at explicit
instances. -/

/-- A pool holding one live task (id 0) that is immediately eligible. -/
def examplePool : Pool :=
  { taskInfos := [(0, { removed := false, next_time_to_execute := 0 })],
    tasks := [0], counters := [] }

/-- A pool holding one removed task (id 0). -/
def removedPool : Pool :=
  { taskInfos := [(0, { removed := true, next_time_to_execute := 0 })],
    tasks := [0], counters := [] }

/-- A pool holding one live task whose ready time (5) is in the future. -/
def laterPool : Pool :=
  { taskInfos := [(0, { removed := false, next_time_to_execute := 5 })],
    tasks := [0], counters := [] }

/-- A pool holding two live tasks with equal ready times. -/
def tiePool : Pool :=
  { taskInfos := [(0, { removed := false, next_time_to_execute := 5 }),
                  (1, { removed := false, next_time_to_execute := 5 })],
    tasks := [0, 1], counters := [] }

/-- A pool holding 101 live tasks with strictly decreasing ready times, so
that every scanned candidate updates the running minimum and the last
(101st) candidate is the argmin. -/
def capPool : Pool :=
  { taskInfos := (List.range 101).map fun i =>
      (i, { removed := false, next_time_to_execute := (101 : Int) - i }),
    tasks := List.range 101, counters := [] }

/-- A callable that does no increments and reports useful work. -/
def runTrue : TaskId → TaskRun := fun _ => { increments := [], outcome := some true }

/-- A callable that increments a counter and then throws. -/
def runThrow : TaskId → TaskRun := fun _ => { increments := [("x", 5)], outcome := none }

/-- Baseline environment: no shutdown, no concurrent removal observed, the
clock far past every ready time, no jitter, `runTrue` callables. -/
def baseInput : IterInput :=
  { shutdown1 := false, shutdown2 := false, removedAtRecheck := fun _ => false,
    t_check := 100, t_done := 100, jitter := 0, run := runTrue }

/-- Baseline environment but the callables throw. -/
def throwInput : IterInput :=
  { baseInput with run := runThrow }

/-- Baseline environment but the `removed` re-check observes `true` (a
concurrent `removeTask` landed between selection and execution). -/
def recheckInput : IterInput :=
  { baseInput with removedAtRecheck := fun _ => true }

/-- Environment for `laterPool`: the clock (3) is before the ready
time (5), jitter draw 0. -/
def laterInput : IterInput :=
  { baseInput with t_check := 3, t_done := 5 }

/-! Helper lemmas about the counters map. -/

theorem lookupVal_addTo (cs : Counters) (n : String) (d : Int) (m : String) :
    lookupVal (addTo cs n d) m = lookupVal cs m + (if n = m then d else 0) := by
  induction cs with
  | nil =>
    by_cases h : n = m <;> simp [addTo, lookupVal, h]
  | cons e rest ih =>
    obtain ⟨k, v⟩ := e
    by_cases hk : k = n
    · by_cases hm : k = m
      · have hnm : n = m := hk ▸ hm
        simp [addTo, lookupVal, hk, hm, hnm]
      · have hnm : ¬ n = m := fun h => hm (hk.trans h)
        simp [addTo, lookupVal, hk, hm, hnm]
    · by_cases hm : k = m
      · have hnm : ¬ n = m := fun h => hk (hm.trans h.symm)
        have hmn : ¬ m = n := fun h => hnm h.symm
        simp [addTo, lookupVal, hk, hm, hnm, hmn]
      · simp [addTo, lookupVal, hk, hm, ih]

theorem sumOf_addTo (cs : Counters) (n : String) (d : Int) (m : String) :
    sumOf (addTo cs n d) m = sumOf cs m + (if n = m then d else 0) := by
  induction cs with
  | nil =>
    by_cases h : n = m <;> simp [addTo, sumOf, h]
  | cons e rest ih =>
    obtain ⟨k, v⟩ := e
    by_cases hk : k = n
    · by_cases hm : k = m
      · have hnm : n = m := hk ▸ hm
        simp only [addTo, if_pos hk, sumOf, if_pos hm, if_pos hnm]
        ring
      · have hnm : ¬ n = m := fun h => hm (hk.trans h)
        simp only [addTo, if_pos hk, sumOf, if_neg hm, if_neg hnm]
        ring
    · simp only [addTo, if_neg hk, sumOf, ih]
      ring

theorem lookupVal_subtractDiff (diff : Counters) :
    ∀ (cs : Counters) (m : String),
      lookupVal (subtractDiff cs diff) m = lookupVal cs m - sumOf diff m := by
  induction diff with
  | nil => intro cs m; simp [subtractDiff, sumOf]
  | cons e rest ih =>
    intro cs m
    obtain ⟨k, v⟩ := e
    have : subtractDiff cs ((k, v) :: rest) = subtractDiff (addTo cs k (-v)) rest := rfl
    rw [this, ih, lookupVal_addTo]
    simp [sumOf]
    by_cases hm : k = m
    · simp [hm]; ring
    · simp [hm]

theorem applyIncrements_net (incs : List (String × Int)) :
    ∀ (shared diff : Counters) (m : String),
      lookupVal (applyIncrements shared diff incs).1 m
        - sumOf (applyIncrements shared diff incs).2 m
      = lookupVal shared m - sumOf diff m := by
  induction incs with
  | nil => intro shared diff m; simp [applyIncrements]
  | cons e rest ih =>
    intro shared diff m
    obtain ⟨n, d⟩ := e
    have : applyIncrements shared diff ((n, d) :: rest)
        = applyIncrements (addTo shared n d) (addTo diff n d) rest := rfl
    rw [this, ih, lookupVal_addTo, sumOf_addTo]
    ring

/-- Net effect of the increment-then-rollback pair on the observable value
of any counter: none. -/
theorem lookupVal_rollback (shared : Counters) (incs : List (String × Int)) (m : String) :
    lookupVal (subtractDiff (applyIncrements shared [] incs).1
        (applyIncrements shared [] incs).2) m = lookupVal shared m := by
  rw [lookupVal_subtractDiff, applyIncrements_net]
  simp [sumOf]

/-! Helper lemmas about the record store. -/

theorem findInfo_map_self (infos : List (TaskId × TaskInfo)) (tid : TaskId)
    (f : TaskInfo → TaskInfo) :
    findInfo (infos.map fun q => (q.1, if q.1 = tid then f q.2 else q.2)) tid
      = (findInfo infos tid).map f := by
  induction infos with
  | nil => simp [findInfo]
  | cons e rest ih =>
    obtain ⟨k, v⟩ := e
    by_cases hk : k = tid <;> simp [findInfo, hk, ih]

theorem findInfo_map_other (infos : List (TaskId × TaskInfo)) (tid u : TaskId)
    (f : TaskInfo → TaskInfo) (hu : u ≠ tid) :
    findInfo (infos.map fun q => (q.1, if q.1 = tid then f q.2 else q.2)) u
      = findInfo infos u := by
  induction infos with
  | nil => simp [findInfo]
  | cons e rest ih =>
    obtain ⟨k, v⟩ := e
    by_cases hku : k = u
    · have hkt : ¬ k = tid := fun h => hu (hku.symm.trans h)
      simp [findInfo, hku, hkt, hu]
    · simp [findInfo, hku, ih]

/-- A handle the model reports as not removed is present in the record
store (the default record for a dangling handle carries `removed = true`). -/
theorem present_of_not_removed (p : Pool) (tid : TaskId)
    (h : (getInfo p tid).removed = false) :
    findInfo p.taskInfos tid = some (getInfo p tid) := by
  unfold getInfo at h ⊢
  cases hf : findInfo p.taskInfos tid with
  | none => rw [hf] at h; simp at h
  | some v => simp [hf]

theorem getInfo_setInfo_self (p : Pool) (tid : TaskId) (f : TaskInfo → TaskInfo)
    (h : (getInfo p tid).removed = false) :
    getInfo (setInfo p tid f) tid = f (getInfo p tid) := by
  have hp := present_of_not_removed p tid h
  unfold getInfo setInfo
  simp only [findInfo_map_self]
  rw [hp]
  simp

theorem getInfo_setInfo_other (p : Pool) (tid u : TaskId) (f : TaskInfo → TaskInfo)
    (hu : u ≠ tid) :
    getInfo (setInfo p tid f) u = getInfo p u := by
  unfold getInfo setInfo
  simp only [findInfo_map_other _ _ _ _ hu]

/-- `getInfo` reads only the record store, so reordering the task list
does not change it. -/
@[simp] theorem getInfo_update_tasks (p : Pool) (l : List TaskId) (u : TaskId) :
    getInfo { p with tasks := l } u = getInfo p u := rfl

/-- `getInfo` reads only the record store, so changing the counters does
not change it. -/
@[simp] theorem getInfo_update_counters (p : Pool) (cs : Counters) (u : TaskId) :
    getInfo { p with counters := cs } u = getInfo p u := rfl

/-! Helper lemmas about the selection scan. -/

theorem selectFrom_length (p : Pool) (l : List TaskId) :
    ∀ (i : Nat) (mt : Time) (tk : Option TaskId), i ≤ 100 →
      (selectFrom p l i mt tk).2.2.length ≤ 101 - i := by
  induction l with
  | nil => intro i mt tk hi; simp [selectFrom]
  | cons tid rest ih =>
    intro i mt tk hi
    by_cases hr : (getInfo p tid).removed
    · simp only [selectFrom, if_pos hr]
      exact ih i mt tk hi
    · by_cases hc : i + 1 > 100
      · simp only [selectFrom, if_neg hr, if_pos hc]
        simp
        omega
      · simp only [selectFrom, if_neg hr, if_neg hc]
        simp only [List.length_cons]
        have := ih (i + 1)
          (if (getInfo p tid).next_time_to_execute < mt then
            (getInfo p tid).next_time_to_execute else mt)
          (if (getInfo p tid).next_time_to_execute < mt then some tid else tk)
          (by omega)
        omega

/-- Invariant of the selection scan: every candidate visited is
non-removed, and either no better task than the incoming one was found
(scan left `min_time` and the chosen task unchanged, every candidate's
time being at least `min_time`), or the scan chose the first visited
candidate whose time is strictly below everything before it and at most
everything after it. -/
theorem selectFrom_spec (p : Pool) (l : List TaskId) :
    ∀ (i : Nat) (mt : Time) (tk : Option TaskId),
      (∀ u ∈ (selectFrom p l i mt tk).2.2, (getInfo p u).removed = false)
      ∧ (((selectFrom p l i mt tk).1 = mt ∧ (selectFrom p l i mt tk).2.1 = tk
            ∧ ∀ u ∈ (selectFrom p l i mt tk).2.2,
                mt ≤ (getInfo p u).next_time_to_execute)
         ∨ (∃ c pre post,
              (selectFrom p l i mt tk).2.2 = pre ++ c :: post
              ∧ (selectFrom p l i mt tk).2.1 = some c
              ∧ (selectFrom p l i mt tk).1 = (getInfo p c).next_time_to_execute
              ∧ (getInfo p c).next_time_to_execute < mt
              ∧ (∀ u ∈ pre,
                  (getInfo p c).next_time_to_execute < (getInfo p u).next_time_to_execute)
              ∧ (∀ u ∈ post,
                  (getInfo p c).next_time_to_execute ≤ (getInfo p u).next_time_to_execute))) := by
  induction l with
  | nil =>
    intro i mt tk
    constructor
    · simp [selectFrom]
    · left; simp [selectFrom]
  | cons tid rest ih =>
    intro i mt tk
    by_cases hr : (getInfo p tid).removed
    · simp only [selectFrom, if_pos hr]
      exact ih i mt tk
    · have hr' : (getInfo p tid).removed = false := by
        cases hb : (getInfo p tid).removed
        · rfl
        · exact absurd hb hr
      by_cases hlt : (getInfo p tid).next_time_to_execute < mt
      · by_cases hc : i + 1 > 100
        · simp only [selectFrom, if_neg hr, if_pos hlt, if_pos hc]
          refine ⟨?_, Or.inr ⟨tid, [], [], ?_, ?_, ?_, hlt, ?_, ?_⟩⟩ <;> simp [hr']
        · simp only [selectFrom, if_neg hr, if_pos hlt, if_neg hc]
          obtain ⟨iha, ihb⟩ := ih (i + 1) (getInfo p tid).next_time_to_execute (some tid)
          constructor
          · intro u hu
            rcases List.mem_cons.mp hu with h | h
            · exact h ▸ hr'
            · exact iha u h
          · rcases ihb with ⟨hm, htk, hall⟩ | ⟨c, pre, post, hvs, htk, hm, hcm, hpre, hpost⟩
            · right
              exact ⟨tid, [], _, by simp, htk, hm, hlt, by simp, hall⟩
            · right
              refine ⟨c, tid :: pre, post, by simp [hvs], htk, hm, lt_trans hcm hlt, ?_, hpost⟩
              intro u hu
              rcases List.mem_cons.mp hu with h | h
              · exact h ▸ hcm
              · exact hpre u h
      · by_cases hc : i + 1 > 100
        · simp only [selectFrom, if_neg hr, if_neg hlt, if_pos hc]
          constructor
          · simp [hr']
          · left
            simp [not_lt.mp hlt]
        · simp only [selectFrom, if_neg hr, if_neg hlt, if_neg hc]
          obtain ⟨iha, ihb⟩ := ih (i + 1) mt tk
          constructor
          · intro u hu
            rcases List.mem_cons.mp hu with h | h
            · exact h ▸ hr'
            · exact iha u h
          · rcases ihb with ⟨hm, htk, hall⟩ | ⟨c, pre, post, hvs, htk, hm, hcm, hpre, hpost⟩
            · left
              refine ⟨hm, htk, ?_⟩
              intro u hu
              rcases List.mem_cons.mp hu with h | h
              · exact h ▸ not_lt.mp hlt
              · exact hall u h
            · right
              refine ⟨c, tid :: pre, post, by simp [hvs], htk, hm, hcm, ?_, hpost⟩
              intro u hu
              rcases List.mem_cons.mp hu with h | h
              · exact h ▸ lt_of_lt_of_le hcm (not_lt.mp hlt)
              · exact hpre u h

/-- Properties of the chosen task of a full selection pass: it is not
removed, the final `min_time` is its ready time, and it is the first
candidate of the visited list achieving the minimum. -/
theorem selectTask_chosen_spec (p : Pool) (tid : TaskId)
    (h : (selectTask p).2.1 = some tid) :
    (getInfo p tid).removed = false
    ∧ (selectTask p).1 = (getInfo p tid).next_time_to_execute
    ∧ ∃ pre post, (selectTask p).2.2 = pre ++ tid :: post
        ∧ (∀ u ∈ pre,
            (getInfo p tid).next_time_to_execute < (getInfo p u).next_time_to_execute)
        ∧ (∀ u ∈ post,
            (getInfo p tid).next_time_to_execute ≤ (getInfo p u).next_time_to_execute) := by
  obtain ⟨ha, hb⟩ := selectFrom_spec p p.tasks 0 timeMax none
  unfold selectTask at h ⊢
  rcases hb with ⟨_, htk, _⟩ | ⟨c, pre, post, hvs, htk, hm, _, hpre, hpost⟩
  · rw [h] at htk; exact absurd htk (by simp)
  · rw [h] at htk
    have hct : c = tid := (Option.some.inj htk).symm
    rw [hct] at hm hpre hpost hvs
    refine ⟨?_, hm, pre, post, hvs, hpre, hpost⟩
    exact ha tid (by rw [hvs]; exact List.mem_append_right _ (List.mem_cons_self _ _))

/-- Every candidate visited by a full selection pass is non-removed. -/
theorem selectTask_visited_not_removed (p : Pool) :
    ∀ u ∈ (selectTask p).2.2, (getInfo p u).removed = false :=
  (selectFrom_spec p p.tasks 0 timeMax none).1

/-- A full selection pass visits at most 101 candidates. -/
theorem selectTask_visited_length (p : Pool) :
    (selectTask p).2.2.length ≤ 101 :=
  selectFrom_length p p.tasks 0 timeMax none (by omega)

/-- Unfolding of the loop body when the selection pass chose a task. -/
theorem threadIteration_some (p : Pool) (inp : IterInput) (tid : TaskId)
    (h : (selectTask p).2.1 = some tid) :
    threadIteration p inp
      = afterSelection { p with tasks := spliceToEnd p.tasks tid } inp
          (selectTask p).1 (some tid) := by
  unfold threadIteration
  rw [h]

/-- Unfolding of the loop body when the selection pass chose no task. -/
theorem threadIteration_none (p : Pool) (inp : IterInput)
    (h : (selectTask p).2.1 = none) :
    threadIteration p inp = afterSelection p inp (selectTask p).1 none := by
  unfold threadIteration
  rw [h]

/-! The claims. -/

/-- Claim C1: a task whose `removed` flag is true is never chosen by the
selection scan (equivalently, a chosen task's flag is false), and a worker
that observes `removed = true` at the re-check after acquiring the task's
rwlock in shared mode does not invoke the task's callable in that
iteration (equivalently, a task that was invoked was observed non-removed
at the re-check). -/
theorem removed_task_never_selected_nor_invoked (p : Pool) (inp : IterInput) (tid : TaskId) :
    ((selectTask p).2.1 = some tid → (getInfo p tid).removed = false)
    ∧ ((threadIteration p inp).invoked = some tid → inp.removedAtRecheck tid = false) := by
  constructor
  · intro h
    exact (selectTask_chosen_spec p tid h).1
  · intro h
    cases hsel : (selectTask p).2.1 with
    | none =>
      rw [threadIteration_none p inp hsel] at h
      unfold afterSelection at h
      by_cases hs : inp.shutdown1 <;> simp [hs] at h
    | some u =>
      rw [threadIteration_some p inp u hsel] at h
      unfold afterSelection execPhase at h
      by_cases hs : inp.shutdown1
      · simp [hs] at h
      · by_cases hrc : inp.removedAtRecheck u
        · simp [hs, hrc] at h
        · cases ho : (inp.run u).outcome with
          | none =>
            simp [hs, hrc, ho] at h
            rw [← h]
            simp [hrc]
          | some dw =>
            simp [hs, hrc, ho] at h
            rw [← h]
            simp [hrc]

/-- Claim C2: the rollback at the end of every pass of the worker loop
subtracts every entry of the local `counters_diff` map from the shared
counters under `counters_mutex`, on normal and exceptional exit alike, so
the observable value of every shared counter is unchanged over the whole
pass; in particular a task that makes no `increment` calls leaves the
shared counters untouched. -/
theorem counters_net_unchanged (p : Pool) (inp : IterInput) (name : String) :
    getCounter (threadIteration p inp).pool name = getCounter p name := by
  cases hsel : (selectTask p).2.1 with
  | none =>
    rw [threadIteration_none p inp hsel]
    unfold afterSelection
    by_cases hs : inp.shutdown1 <;> simp [hs, getCounter]
  | some u =>
    rw [threadIteration_some p inp u hsel]
    unfold afterSelection execPhase
    by_cases hs : inp.shutdown1
    · simp [hs, getCounter]
    · by_cases hrc : inp.removedAtRecheck u
      · simp [hs, hrc, getCounter]
      · cases ho : (inp.run u).outcome with
        | none =>
          simp [hs, hrc, ho, getCounter]
          exact lookupVal_rollback p.counters (inp.run u).increments name
        | some dw =>
          simp [hs, hrc, ho, getCounter, setInfo]
          exact lookupVal_rollback p.counters (inp.run u).increments name

/-- Claim C3 (amended): when the chosen task's ready time is strictly
after `time(0)`, the worker waits on `wake_event` for
`(min_time - now) + jitter` with the jitter drawn from `[0, J)` — and then
proceeds in the same iteration, with no fresh selection pass, to that same
task: it acquires the rwlock, re-checks `removed`, and when the re-check
observes false it invokes the task it had already chosen. -/
theorem not_ready_wait_then_executes_same_task (p : Pool) (inp : IterInput) (tid : TaskId)
    (hsel : (selectTask p).2.1 = some tid)
    (hfut : (selectTask p).1 > inp.t_check)
    (hs : inp.shutdown1 = false)
    (_hj0 : 0 ≤ inp.jitter) (_hj1 : inp.jitter < sleep_seconds_random_part) :
    (threadIteration p inp).notReadyWaitDur
      = some ((((selectTask p).1 - inp.t_check : Int) : ℚ) + inp.jitter)
    ∧ (inp.removedAtRecheck tid = false →
        (threadIteration p inp).invoked = some tid) := by
  rw [threadIteration_some p inp tid hsel]
  unfold afterSelection execPhase
  constructor
  · by_cases hrc : inp.removedAtRecheck tid
    · simp [hs, hrc, hfut]
    · cases ho : (inp.run tid).outcome with
      | none => simp [hs, hrc, ho, hfut]
      | some dw => simp [hs, hrc, ho, hfut]
  · intro hrc
    cases ho : (inp.run tid).outcome with
    | none => simp [hs, hrc, ho]
    | some dw => simp [hs, hrc, ho]

/-- Claim C4: an exception thrown by the task's callable is caught inside
the worker loop: the invocation happened, the task's
`next_time_to_execute` is left unchanged (the normal-return update is
skipped), the task stays in the task list, and (when shutdown was not
observed) the worker waits on `wake_event` for exactly `sleep_seconds`,
with no jitter, before the next iteration. -/
theorem exception_keeps_task_scheduled (p : Pool) (inp : IterInput) (tid : TaskId)
    (hsel : (selectTask p).2.1 = some tid)
    (hrc : inp.removedAtRecheck tid = false)
    (hs1 : inp.shutdown1 = false) (hs2 : inp.shutdown2 = false)
    (ho : (inp.run tid).outcome = none) :
    (threadIteration p inp).invoked = some tid
    ∧ (getInfo (threadIteration p inp).pool tid).next_time_to_execute
        = (getInfo p tid).next_time_to_execute
    ∧ tid ∈ (threadIteration p inp).pool.tasks
    ∧ (threadIteration p inp).exceptionWaitDur = some ((sleep_seconds : Int) : ℚ) := by
  rw [threadIteration_some p inp tid hsel]
  unfold afterSelection execPhase
  refine ⟨?_, ?_, ?_, ?_⟩ <;> simp [hs1, hs2, hrc, ho, spliceToEnd, getInfo]

/-- Claim C5: a task invocation that returns normally with `done_work`
sets the task's `next_time_to_execute` to
`time(0) + (done_work ? 0 : sleep_seconds)`: immediately eligible again
after useful work, delayed by the base interval otherwise. -/
theorem normal_return_updates_next_time (p : Pool) (inp : IterInput) (tid : TaskId)
    (dw : Bool)
    (hsel : (selectTask p).2.1 = some tid)
    (hrc : inp.removedAtRecheck tid = false)
    (hs1 : inp.shutdown1 = false)
    (ho : (inp.run tid).outcome = some dw) :
    (getInfo (threadIteration p inp).pool tid).next_time_to_execute
      = inp.t_done + (if dw then 0 else sleep_seconds) := by
  have hnr : (getInfo p tid).removed = false := (selectTask_chosen_spec p tid hsel).1
  rw [threadIteration_some p inp tid hsel]
  unfold afterSelection execPhase
  simp only [hs1, hrc, ho]
  simp only [Bool.false_eq_true, if_false]
  have hp := present_of_not_removed p tid hnr
  simp only [getInfo, setInfo]
  rw [findInfo_map_self p.taskInfos tid
    (fun i => { i with
      next_time_to_execute := inp.t_done + if dw = true then 0 else sleep_seconds })]
  rw [hp]
  simp

/-- Claim C6: `removeTask` is idempotent.  The first call exchanges the
`removed` flag to true; a call that observes the flag already true returns
immediately — it performs no rwlock acquisition and no list erasure (its
event list is empty) and leaves the pool unchanged. -/
theorem removeTask_idempotent (p : Pool) (tid : TaskId) :
    removeTask (removeTask p tid).1 tid = ((removeTask p tid).1, [])
    ∧ ((getInfo p tid).removed = true → removeTask p tid = (p, [])) := by
  have hgen : ∀ q : Pool, (getInfo q tid).removed = true → removeTask q tid = (q, []) := by
    intro q hq
    unfold removeTask
    simp [hq]
  constructor
  · by_cases h : (getInfo p tid).removed
    · rw [hgen p h]
      exact hgen p h
    · have hr' : (getInfo p tid).removed = false := by
        cases hb : (getInfo p tid).removed
        · rfl
        · exact absurd hb h
      have hset : (getInfo (removeTask p tid).1 tid).removed = true := by
        unfold removeTask
        simp only [hr', Bool.false_eq_true, if_false]
        have := getInfo_setInfo_self p tid (fun i => { i with removed := true }) hr'
        calc (getInfo (Pool.mk (setInfo p tid fun i => { i with removed := true }).taskInfos
                ((setInfo p tid fun i => { i with removed := true }).tasks.erase tid)
                (setInfo p tid fun i => { i with removed := true }).counters) tid).removed
            = (getInfo (setInfo p tid fun i => { i with removed := true }) tid).removed := rfl
          _ = true := by rw [this]
      exact hgen _ hset
  · exact hgen p

/-- Claim C7: `wake` on a removed task returns with no effect at all (no
splice, no time change, no notification).  On a live task it splices the
task to the front of the list, pulls `next_time_to_execute` back to `now`
exactly when it was strictly greater than `now` (leaving it unchanged
otherwise, and never touching the `removed` flag, other tasks or the
counters), and notifies exactly one waiter on `wake_event`. -/
theorem wake_spec (p : Pool) (tid : TaskId) (now : Time) :
    ((getInfo p tid).removed = true →
      wake p tid now = { pool := p, notified := 0, trace := [] })
    ∧ ((getInfo p tid).removed = false →
        (wake p tid now).notified = 1
        ∧ (wake p tid now).pool.tasks = tid :: p.tasks.erase tid
        ∧ (getInfo (wake p tid now).pool tid).next_time_to_execute
            = (if (getInfo p tid).next_time_to_execute > now then now
               else (getInfo p tid).next_time_to_execute)
        ∧ (getInfo (wake p tid now).pool tid).removed = false
        ∧ (∀ u, u ≠ tid → getInfo (wake p tid now).pool u = getInfo p u)
        ∧ (wake p tid now).pool.counters = p.counters) := by
  constructor
  · intro h
    unfold wake
    simp [h]
  · intro h
    have hnr1 : (getInfo (Pool.mk p.taskInfos (spliceToFront p.tasks tid) p.counters)
        tid).removed = false := h
    refine ⟨?_, ?_, ?_, ?_, ?_, ?_⟩
    · unfold wake
      simp [h]
    · unfold wake
      by_cases hw : (getInfo p tid).next_time_to_execute > now
      · simp [h, hw, setInfo, spliceToFront]
      · simp [h, hw, spliceToFront]
    · unfold wake
      by_cases hw : (getInfo p tid).next_time_to_execute > now
      · simp only [h, Bool.false_eq_true, if_false, if_pos hw]
        rw [getInfo_setInfo_self _ _ _ hnr1]
      · simp only [h, Bool.false_eq_true, if_false, if_neg hw]
        rfl
    · unfold wake
      by_cases hw : (getInfo p tid).next_time_to_execute > now
      · simp only [h, Bool.false_eq_true, if_false, if_pos hw]
        rw [getInfo_setInfo_self _ _ _ hnr1]
        exact h
      · simp only [h, Bool.false_eq_true, if_false, if_neg hw]
        exact h
    · intro u hu
      unfold wake
      by_cases hw : (getInfo p tid).next_time_to_execute > now
      · simp only [h, Bool.false_eq_true, if_false, if_pos hw]
        rw [getInfo_setInfo_other _ _ _ _ hu]
        rfl
      · simp only [h, Bool.false_eq_true, if_false, if_neg hw]
        rfl
    · unfold wake
      by_cases hw : (getInfo p tid).next_time_to_execute > now
      · simp [h, hw, setInfo]
      · simp [h, hw]

set_option maxRecDepth 100000

/-- Claim C8 counterexample: on a pool of 101 live tasks the selection
scan visits 101 candidates, not at most 100 — the loop increments `i`
after processing a candidate and breaks on `i > 100`, so the 101st
non-removed task is still compared, and here (having the strictly
smallest ready time) it is the one chosen. -/
theorem selection_cap_cex :
    (selectTask capPool).2.2.length = 101 ∧ (selectTask capPool).2.1 = some 100 := by
  decide

/-- Claim C8 (amended): the selection scan walks the list from the front,
skips removed tasks (every visited candidate is non-removed), visits at
most 101 candidates (the break fires after the 101st non-removed task, not
the 100th), and the chosen task's `next_time_to_execute` is minimal among
the candidates visited. -/
theorem selection_minimal_with_cap (p : Pool) (tid : TaskId) :
    (selectTask p).2.2.length ≤ 101
    ∧ (∀ u ∈ (selectTask p).2.2, (getInfo p u).removed = false)
    ∧ ((selectTask p).2.1 = some tid →
        tid ∈ (selectTask p).2.2
        ∧ ∀ u ∈ (selectTask p).2.2,
            (getInfo p tid).next_time_to_execute ≤ (getInfo p u).next_time_to_execute) := by
  refine ⟨selectTask_visited_length p, selectTask_visited_not_removed p, ?_⟩
  intro h
  obtain ⟨-, -, pre, post, hvs, hpre, hpost⟩ := selectTask_chosen_spec p tid h
  constructor
  · rw [hvs]
    exact List.mem_append_right _ (List.mem_cons_self _ _)
  · intro u hu
    rw [hvs] at hu
    rcases List.mem_append.mp hu with hu | hu
    · exact le_of_lt (hpre u hu)
    · rcases List.mem_cons.mp hu with hu | hu
      · rw [hu]
      · exact hpost u hu

/-- Claim C9 counterexample: with two visited tasks of equal minimal ready
time, the scan chooses task 0 — the candidate considered FIRST, because
the running minimum is only replaced on strict `<` — not task 1, the one
most recently considered. -/
theorem selection_tie_break_cex :
    (selectTask tiePool).2.1 = some 0
    ∧ (selectTask tiePool).2.2 = [0, 1]
    ∧ (getInfo tiePool 0).next_time_to_execute = (getInfo tiePool 1).next_time_to_execute := by
  decide

/-- Claim C9 (amended): a chosen task is spliced to the end of the task
list, and among visited candidates with equal minimal
`next_time_to_execute` the chosen (and thereby demoted) task is the one
considered EARLIEST in the scan: every candidate visited before it has a
strictly greater ready time, and every one after it a greater-or-equal
one. -/
theorem chosen_spliced_to_end_first_minimum (p : Pool) (inp : IterInput) (tid : TaskId)
    (h : (selectTask p).2.1 = some tid) :
    (threadIteration p inp).pool.tasks = p.tasks.erase tid ++ [tid]
    ∧ ∃ pre post, (selectTask p).2.2 = pre ++ tid :: post
        ∧ (∀ u ∈ pre,
            (getInfo p tid).next_time_to_execute < (getInfo p u).next_time_to_execute)
        ∧ (∀ u ∈ post,
            (getInfo p tid).next_time_to_execute ≤ (getInfo p u).next_time_to_execute) := by
  constructor
  · rw [threadIteration_some p inp tid h]
    unfold afterSelection execPhase
    by_cases hs : inp.shutdown1
    · simp [hs, spliceToEnd]
    · by_cases hrc : inp.removedAtRecheck tid
      · simp [hs, hrc, spliceToEnd]
      · cases ho : (inp.run tid).outcome with
        | none => simp [hs, hrc, ho, spliceToEnd]
        | some dw => simp [hs, hrc, ho, spliceToEnd, setInfo]
  · obtain ⟨-, -, pre, post, hvs, hpre, hpost⟩ := selectTask_chosen_spec p tid h
    exact ⟨pre, post, hvs, hpre, hpost⟩

/-- Claim C10 counterexample: in a normal execution the worker's write of
`next_time_to_execute` (after the task returned) happens at a point where
`tasks_mutex` is NOT held — the checker requiring every such write to be
under `tasks_mutex` rejects the iteration's trace. -/
theorem worker_write_without_tasks_mutex_cex :
    wakeWriteLocks false (threadIteration examplePool baseInput).trace = false
    ∧ (threadIteration examplePool baseInput).trace
        = [.lockTasks, .unlockTasks, .rlockTask, .invoke 0, .writeNextTime 0, .runlockTask] := by
  decide

/-- Claim C10 (amended): for a live task, `next_time_to_execute` is
written only by the worker that just executed it or by `wake`; `wake`'s
write is performed under `tasks_mutex`, but the worker's post-execution
write is performed while holding only the task's rwlock in shared mode,
with `tasks_mutex` NOT held. -/
theorem next_time_write_lock_discipline (p : Pool) (inp : IterInput) (tid : TaskId)
    (now : Time) :
    workerWriteLocks false false (threadIteration p inp).trace = true
    ∧ wakeWriteLocks false (wake p tid now).trace = true := by
  constructor
  · cases hsel : (selectTask p).2.1 with
    | none =>
      rw [threadIteration_none p inp hsel]
      unfold afterSelection
      by_cases hs : inp.shutdown1
      · simp [hs, workerWriteLocks]
      · simp [hs, workerWriteLocks]
    | some u =>
      rw [threadIteration_some p inp u hsel]
      unfold afterSelection execPhase
      by_cases hs : inp.shutdown1
      · simp [hs, workerWriteLocks]
      · by_cases hfut : (selectTask p).1 > inp.t_check
        · by_cases hrc : inp.removedAtRecheck u
          · simp [hs, hfut, hrc, workerWriteLocks]
          · cases ho : (inp.run u).outcome with
            | none =>
              by_cases hs2 : inp.shutdown2
              · simp [hs, hfut, hrc, ho, hs2, workerWriteLocks]
              · simp [hs, hfut, hrc, ho, hs2, workerWriteLocks]
            | some dw => simp [hs, hfut, hrc, ho, workerWriteLocks]
        · by_cases hrc : inp.removedAtRecheck u
          · simp [hs, hfut, hrc, workerWriteLocks]
          · cases ho : (inp.run u).outcome with
            | none =>
              by_cases hs2 : inp.shutdown2
              · simp [hs, hfut, hrc, ho, hs2, workerWriteLocks]
              · simp [hs, hfut, hrc, ho, hs2, workerWriteLocks]
            | some dw => simp [hs, hfut, hrc, ho, workerWriteLocks]
  · unfold wake
    by_cases h : (getInfo p tid).removed
    · simp [h, wakeWriteLocks]
    · by_cases hw : (getInfo p tid).next_time_to_execute > now
      · simp [h, hw, wakeWriteLocks]
      · simp [h, hw, wakeWriteLocks]

/-- Claim C3 counterexample: with the single task's ready time (5) after
the clock (3), the worker performs the not-yet-ready wait and then, in the
same loop iteration, invokes that very task — the loop is not restarted
and no fresh selection pass happens before the execution. -/
theorem not_ready_wait_no_restart_cex :
    (threadIteration laterPool laterInput).notReadyWaitDur.isSome = true
    ∧ (threadIteration laterPool laterInput).invoked = some 0 := by
  decide

/-- Witness for `removed_task_never_selected_nor_invoked`: at the
single-task pool both hypotheses hold and both conclusions follow. -/
theorem removed_task_never_selected_nor_invoked_witness :
    (getInfo examplePool 0).removed = false
    ∧ baseInput.removedAtRecheck 0 = false :=
  ⟨(removed_task_never_selected_nor_invoked examplePool baseInput 0).1 (by decide),
   (removed_task_never_selected_nor_invoked examplePool baseInput 0).2 (by decide)⟩

/-- Witness for `not_ready_wait_then_executes_same_task` at `laterPool`
(ready time 5, clock 3, jitter 0). -/
theorem not_ready_wait_then_executes_same_task_witness :
    (threadIteration laterPool laterInput).notReadyWaitDur
      = some ((((selectTask laterPool).1 - laterInput.t_check : Int) : ℚ) + laterInput.jitter)
    ∧ (threadIteration laterPool laterInput).invoked = some 0 :=
  have h := not_ready_wait_then_executes_same_task laterPool laterInput 0
    (by decide) (by decide) rfl (by decide) (by decide)
  ⟨h.1, h.2 rfl⟩

/-- Witness for `exception_keeps_task_scheduled`: a throwing task at the
single-task pool. -/
theorem exception_keeps_task_scheduled_witness :
    (throwInput.run 0).outcome = none
    ∧ (threadIteration examplePool throwInput).invoked = some 0 :=
  ⟨rfl, (exception_keeps_task_scheduled examplePool throwInput 0
    (by decide) rfl rfl rfl rfl).1⟩

/-- Witness for `normal_return_updates_next_time`: a task returning
`true` at the single-task pool. -/
theorem normal_return_updates_next_time_witness :
    (baseInput.run 0).outcome = some true
    ∧ (getInfo (threadIteration examplePool baseInput).pool 0).next_time_to_execute
        = baseInput.t_done + (if true then 0 else sleep_seconds) :=
  ⟨rfl, normal_return_updates_next_time examplePool baseInput 0 true (by decide) rfl rfl rfl⟩

/-- Witness for `removeTask_idempotent`: a pool whose task is already
removed. -/
theorem removeTask_idempotent_witness :
    (getInfo removedPool 0).removed = true
    ∧ removeTask removedPool 0 = (removedPool, []) :=
  ⟨by decide, (removeTask_idempotent removedPool 0).2 (by decide)⟩

/-- Witness for `wake_spec`: the removed branch at `removedPool` and the
live branch at `laterPool`. -/
theorem wake_spec_witness :
    wake removedPool 0 0 = { pool := removedPool, notified := 0, trace := [] }
    ∧ (wake laterPool 0 3).notified = 1 :=
  ⟨(wake_spec removedPool 0 0).1 (by decide),
   ((wake_spec laterPool 0 3).2 (by decide)).1⟩

/-- Witness for `selection_minimal_with_cap` at the single-task pool. -/
theorem selection_minimal_with_cap_witness :
    (selectTask examplePool).2.1 = some 0 ∧ 0 ∈ (selectTask examplePool).2.2 :=
  ⟨by decide, ((selection_minimal_with_cap examplePool 0).2.2 (by decide)).1⟩

/-- Witness for `chosen_spliced_to_end_first_minimum` at the single-task
pool. -/
theorem chosen_spliced_to_end_first_minimum_witness :
    (selectTask examplePool).2.1 = some 0
    ∧ (threadIteration examplePool baseInput).pool.tasks
        = examplePool.tasks.erase 0 ++ [0] :=
  ⟨by decide, (chosen_spliced_to_end_first_minimum examplePool baseInput 0 (by decide)).1⟩

end BackgroundProcessingPool
